import Mathlib

/-!
Verification development for the notes classification-and-export pipeline
(`notes_core.py`).  The Python functions are shallowly embedded as executable
Lean definitions over `List Char` / `String`; Python floats are modelled as
exact rationals (`ℚ`), and the filesystem side of the exporter is modelled by
the pure path-assignment function (the run timestamp, produced once per call
by `datetime.now()`, is passed in as an explicit parameter).
-/

namespace NotesCore

/-- `NoteRecord` from `notes_core.py`: folder, title, creation date and raw
HTML body of one note. -/
structure NoteRecord where
  folder : String
  title : String
  created : String
  body_html : String
deriving DecidableEq, Repr

/-- `SuggestedFolder` from `notes_core.py`: suggested name, heuristic
confidence (a Python float, modelled as an exact rational) and rationale. -/
structure SuggestedFolder where
  name : String
  confidence : ℚ
  reason : String
deriving DecidableEq, Repr

/-! ### Character helpers -/

/-- The ASCII whitespace set recognised by Python's `str.strip()` and by the
regex class `\s` (restricted to ASCII; the notes pipeline only feeds it
ASCII-range markup). -/
def isPyWS (c : Char) : Bool :=
  c == ' ' || c == '\t' || c == '\n' || c == '\r' || c == '\x0b' || c == '\x0c'

/-- ASCII lowercasing, as performed by `str.lower()` on ASCII input. -/
def pyLowerChar (c : Char) : Char :=
  if 'A' ≤ c ∧ c ≤ 'Z' then Char.ofNat (c.toNat + 32) else c

/-- Python `str.strip()`: drop leading and trailing whitespace. -/
def pyStrip (l : List Char) : List Char :=
  ((l.dropWhile isPyWS).reverse.dropWhile isPyWS).reverse

/-- Index of the first character satisfying `p`, if any. -/
def firstIdxP (p : Char → Bool) : List Char → Option Nat
  | [] => none
  | c :: rest => if p c then some 0 else (firstIdxP p rest).map (· + 1)

/-- Index of the first occurrence of `pat` as a contiguous sublist, if any. -/
def firstOccIdx (pat : List Char) : List Char → Option Nat
  | [] => if pat.isEmpty then some 0 else none
  | c :: rest =>
    if pat.isPrefixOf (c :: rest) then some 0 else (firstOccIdx pat rest).map (· + 1)

/-! ### `strip_html` — the five regex passes and entity unescaping

Each `re.sub` pass is modelled by a left-to-right scanner.  The scanners are
structural recursions on the character list; the `Nat` state counts characters
still to be skipped from an already-recognised match (re.sub never rescans a
replaced region). -/

/-- Length of the lazy regex match `<TAG[\s\S]*?>[\s\S]*?</TAG>` starting at
the head of `s`: the open prefix `<TAG`, the first following `>`, then the
first following `</TAG>` (Python's lazy quantifiers take the first `>` and the
first close tag after it).  `none` when no match starts here. -/
def blockMatchLen (tag : List Char) (s : List Char) : Option Nat :=
  let openT := '<' :: tag
  let closeT := '<' :: '/' :: (tag ++ ['>'])
  if openT.isPrefixOf s then
    match firstIdxP (fun c => c == '>') (s.drop openT.length) with
    | none => none
    | some j =>
      match firstOccIdx closeT ((s.drop openT.length).drop (j + 1)) with
      | none => none
      | some k => some (openT.length + j + 1 + k + closeT.length)
  else none

/-- Scanner for `re.sub(r"<TAG[\s\S]*?>[\s\S]*?</TAG>", "", s)` (case
sensitive, as in the source). -/
def subBlockGo (tag : List Char) : Nat → List Char → List Char
  | _, [] => []
  | k + 1, _ :: rest => subBlockGo tag k rest
  | 0, c :: rest =>
    match blockMatchLen tag (c :: rest) with
    | some L => subBlockGo tag (L - 1) rest
    | none => c :: subBlockGo tag 0 rest

def styleTag : List Char := ['s', 't', 'y', 'l', 'e']

def scriptTag : List Char := ['s', 'c', 'r', 'i', 'p', 't']

/-- Length of a `<br\s*/?>` match (case insensitive) at the head of `s`. -/
def brMatchLen (s : List Char) : Option Nat :=
  match s with
  | '<' :: c1 :: c2 :: rest =>
    if (c1 == 'b' || c1 == 'B') && (c2 == 'r' || c2 == 'R') then
      let w := (rest.takeWhile isPyWS).length
      match rest.drop w with
      | '/' :: '>' :: _ => some (3 + w + 2)
      | '>' :: _ => some (3 + w + 1)
      | _ => none
    else none
  | _ => none

/-- Scanner for `re.sub(r"<br\s*/?>", "\n", s, flags=re.IGNORECASE)`. -/
def subBrGo : Nat → List Char → List Char
  | _, [] => []
  | k + 1, _ :: rest => subBrGo k rest
  | 0, c :: rest =>
    match brMatchLen (c :: rest) with
    | some L => '\n' :: subBrGo (L - 1) rest
    | none => c :: subBrGo 0 rest

/-- Length (always 4) of a `</p>` match (case insensitive) at the head. -/
def pCloseLen (s : List Char) : Option Nat :=
  match s with
  | '<' :: '/' :: c :: '>' :: _ => if c == 'p' || c == 'P' then some 4 else none
  | _ => none

/-- Scanner for `re.sub(r"</p>", "\n\n", s, flags=re.IGNORECASE)`. -/
def subPGo : Nat → List Char → List Char
  | _, [] => []
  | k + 1, _ :: rest => subPGo k rest
  | 0, c :: rest =>
    match pCloseLen (c :: rest) with
    | some _ => '\n' :: '\n' :: subPGo 3 rest
    | none => c :: subPGo 0 rest

/-- Scanner for `re.sub(r"<[^>]+>", "", s)`: a `<`, at least one non-`>`
character, then `>`. -/
def subTagsGo : Nat → List Char → List Char
  | _, [] => []
  | k + 1, _ :: rest => subTagsGo k rest
  | 0, c :: rest =>
    if c == '<' then
      match firstIdxP (fun x => x == '>') rest with
      | some (j + 1) => subTagsGo (j + 2) rest
      | _ => c :: subTagsGo 0 rest
    else c :: subTagsGo 0 rest

/-! ### `html.unescape` — character references

`strip_html` ends with Python's `html.unescape`.  Its regex
`&(#[0-9]+;?|#[xX][0-9a-fA-F]+;?|[^\t\n\f <&#;]{1,32};?)` and replacement
function are modelled below; the named-reference table is restricted to a
core subset of CPython's `html._html5` (the full table has ~2200 entries;
the pipeline's claims only exercise the standard core entities). -/

def isDecDigit (c : Char) : Bool := decide ('0' ≤ c) && decide (c ≤ '9')

def isHexDig (c : Char) : Bool :=
  isDecDigit c || (decide ('a' ≤ c) && decide (c ≤ 'f')) || (decide ('A' ≤ c) && decide (c ≤ 'F'))

def decDigitVal (c : Char) : Nat := c.toNat - '0'.toNat

def hexDigitVal (c : Char) : Nat :=
  if isDecDigit c then decDigitVal c
  else if decide ('a' ≤ c) && decide (c ≤ 'f') then c.toNat - 'a'.toNat + 10
  else c.toNat - 'A'.toNat + 10

def digitsVal (base : Nat) (dv : Char → Nat) (ds : List Char) : Nat :=
  ds.foldl (fun acc c => acc * base + dv c) 0

/-- CPython's `html._invalid_charrefs` (numeric references remapped per the
HTML standard, mostly windows-1252 legacy). -/
def invalidCharrefs : List (Nat × String) :=
  [(0x00, "�"), (0x0d, "\r"), (0x80, "€"), (0x81, "\u0081"),
   (0x82, "‚"), (0x83, "ƒ"), (0x84, "„"), (0x85, "…"),
   (0x86, "†"), (0x87, "‡"), (0x88, "ˆ"), (0x89, "‰"),
   (0x8a, "Š"), (0x8b, "‹"), (0x8c, "Œ"), (0x8d, "\u008D"),
   (0x8e, "Ž"), (0x8f, "\u008F"), (0x90, "\u0090"), (0x91, "‘"),
   (0x92, "’"), (0x93, "“"), (0x94, "”"), (0x95, "•"),
   (0x96, "–"), (0x97, "—"), (0x98, "˜"), (0x99, "™"),
   (0x9a, "š"), (0x9b, "›"), (0x9c, "œ"), (0x9d, "\u009D"),
   (0x9e, "ž"), (0x9f, "Ÿ")]

/-- CPython's `html._invalid_codepoints` (references dropped entirely). -/
def invalidCodepoint (n : Nat) : Bool :=
  (decide (1 ≤ n) && decide (n ≤ 8)) || n == 0xb ||
  (decide (0xe ≤ n) && decide (n ≤ 0x1f)) ||
  (decide (0x7f ≤ n) && decide (n ≤ 0x9f)) ||
  (decide (0xfdd0 ≤ n) && decide (n ≤ 0xfdef)) ||
  n % 0x10000 == 0xfffe || n % 0x10000 == 0xffff

/-- Replacement text of a numeric character reference `&#num;`. -/
def numCharref (num : Nat) : List Char :=
  match invalidCharrefs.find? (fun p => p.1 == num) with
  | some p => p.2.toList
  | none =>
    if (0xD800 ≤ num ∧ num ≤ 0xDFFF) ∨ 0x10FFFF < num then ['�']
    else if invalidCodepoint num then []
    else [Char.ofNat num]

/-- Core subset of CPython's `html._html5` named-reference table (entries with
and without trailing semicolon, exactly as CPython lists them). -/
def entityTable : List (String × String) :=
  [("amp;", "&"), ("amp", "&"), ("AMP;", "&"), ("AMP", "&"),
   ("lt;", "<"), ("lt", "<"), ("LT;", "<"), ("LT", "<"),
   ("gt;", ">"), ("gt", ">"), ("GT;", ">"), ("GT", ">"),
   ("quot;", "\""), ("quot", "\""), ("QUOT;", "\""), ("QUOT", "\""),
   ("apos;", "\x27"),
   ("nbsp;", " "), ("nbsp", " "),
   ("copy;", "©"), ("copy", "©"),
   ("mdash;", "—"), ("ndash;", "–"), ("hellip;", "…"),
   ("rsquo;", "’"), ("lsquo;", "‘"),
   ("rdquo;", "”"), ("ldquo;", "“")]

def entLookup (key : List Char) : Option (List Char) :=
  (entityTable.find? (fun p => p.1.toList == key)).map (fun p => p.2.toList)

/-- CPython's longest-matching-name fallback: try prefixes of the matched
text, longest first, down to length 2. -/
def entPrefixSearch (ml : List Char) : Nat → Option (List Char × Nat)
  | 0 => none
  | 1 => none
  | n + 2 =>
    match entLookup (ml.take (n + 2)) with
    | some r => some (r, n + 2)
    | none => entPrefixSearch ml (n + 1)

/-- Characters allowed in a named reference by the class `[^\t\n\f <&#;]`. -/
def isEntNameChar (c : Char) : Bool :=
  !(c == '\t' || c == '\n' || c == '\x0c' || c == ' ' || c == '<' || c == '&' ||
    c == '#' || c == ';')

/-- Scanner for `html.unescape`. -/
def unescapeGo : Nat → List Char → List Char
  | _, [] => []
  | k + 1, _ :: rest => unescapeGo k rest
  | 0, c :: rest =>
    if c == '&' then
      match rest with
      | '#' :: t =>
        match t with
        | x :: ds =>
          if x == 'x' || x == 'X' then
            let hs := ds.takeWhile isHexDig
            if hs.isEmpty then c :: unescapeGo 0 rest
            else
              let semi := if (ds.drop hs.length).head? == some ';' then 1 else 0
              numCharref (digitsVal 16 hexDigitVal hs) ++ unescapeGo (2 + hs.length + semi) rest
          else
            let dsr := t.takeWhile isDecDigit
            if dsr.isEmpty then c :: unescapeGo 0 rest
            else
              let semi := if (t.drop dsr.length).head? == some ';' then 1 else 0
              numCharref (digitsVal 10 decDigitVal dsr) ++ unescapeGo (1 + dsr.length + semi) rest
        | [] => c :: unescapeGo 0 rest
      | _ =>
        let name := (rest.takeWhile isEntNameChar).take 32
        if name.isEmpty then c :: unescapeGo 0 rest
        else
          let ml := if (rest.drop name.length).head? == some ';' then name ++ [';'] else name
          match entLookup ml with
          | some r => r ++ unescapeGo ml.length rest
          | none =>
            match entPrefixSearch ml (ml.length - 1) with
            | some (r, x) => r ++ ml.drop x ++ unescapeGo ml.length rest
            | none => c :: (ml ++ unescapeGo ml.length rest)
    else c :: unescapeGo 0 rest

/-! ### `strip_html`, `slugify`, `tokenize` -/

/-- `strip_html` from `notes_core.py`: remove `<style>`/`<script>` blocks,
turn `<br>` into a newline and `</p>` into a blank line, drop remaining tags,
decode entities, and strip surrounding whitespace. -/
def strip_html (html_text : String) : String :=
  let t1 := subBlockGo styleTag 0 html_text.toList
  let t2 := subBlockGo scriptTag 0 t1
  let t3 := subBrGo 0 t2
  let t4 := subPGo 0 t3
  let t5 := subTagsGo 0 t4
  let t6 := unescapeGo 0 t5
  String.mk (pyStrip t6)

/-- Characters kept by `re.sub(r"[^a-z0-9\-\s]", "", ...)` in `slugify`. -/
def isSlugKeep (c : Char) : Bool :=
  (decide ('a' ≤ c) && decide (c ≤ 'z')) || (decide ('0' ≤ c) && decide (c ≤ '9')) ||
  c == '-' || isPyWS c

/-- Scanner for `re.sub(r"\s+", "-", ...)`: each maximal whitespace run
becomes a single hyphen. -/
def collapseWSGo : Bool → List Char → List Char
  | _, [] => []
  | inWS, c :: rest =>
    if isPyWS c then
      if inWS then collapseWSGo true rest else '-' :: collapseWSGo true rest
    else c :: collapseWSGo false rest

/-- `slugify` from `notes_core.py`. -/
def slugify (value : String) : String :=
  let v1 := (pyStrip value.toList).map pyLowerChar
  let v2 := v1.filter isSlugKeep
  let v3 := collapseWSGo false v2
  if v3 = [] then "untitled" else String.mk v3

/-- Characters of a token: the regex class `[a-z0-9]`. -/
def isTokenChar (c : Char) : Bool :=
  (decide ('a' ≤ c) && decide (c ≤ 'z')) || (decide ('0' ≤ c) && decide (c ≤ '9'))

/-- Scanner for `re.findall(r"[a-z0-9]+", ...)`; `acc` holds the current run,
reversed. -/
def tokenizeGo (acc : List Char) : List Char → List String
  | [] => if acc.isEmpty then [] else [String.mk acc.reverse]
  | c :: rest =>
    if isTokenChar c then tokenizeGo (c :: acc) rest
    else if acc.isEmpty then tokenizeGo [] rest
    else String.mk acc.reverse :: tokenizeGo [] rest

/-- `tokenize` from `notes_core.py`: lowercase, then maximal alphanumeric
runs. -/
def tokenize (text : String) : List String :=
  tokenizeGo [] (text.toList.map pyLowerChar)

/-! ### `suggest_folder` -/

/-- The static keyword table of `suggest_folder`, in Python dict insertion
order (Work, Personal, Finance, Ideas, Journal); the keyword sets are modelled
as lists, only membership being used. -/
def keyword_map : List (String × List String) :=
  [("Work", ["meeting", "client", "project", "deadline", "invoice", "deliverable", "followup"]),
   ("Personal", ["family", "birthday", "travel", "recipe", "meal", "weekend"]),
   ("Finance", ["budget", "tax", "expense", "invoice", "payment"]),
   ("Ideas", ["idea", "brainstorm", "concept", "draft"]),
   ("Journal", ["today", "gratitude", "mood", "reflection", "diary"])]

/-- Keyword score of one folder: number of tokens (with repetition) belonging
to its keyword set. -/
def folderScore (kws : List String) (tokens : List String) : Nat :=
  (tokens.filter (fun t => decide (t ∈ kws))).length

/-- The per-folder scores, in the table's insertion order (the `scores` dict). -/
def scoreList (tokens : List String) : List (String × Nat) :=
  keyword_map.map (fun p => (p.1, folderScore p.2 tokens))

/-- Python's `max(..., key=lambda item: item[1])`: keeps the first item whose
score is maximal (a later item replaces the current best only when strictly
greater). -/
def maxByScore (hd : String × Nat) (tl : List (String × Nat)) : String × Nat :=
  tl.foldl (fun best item => if best.2 < item.2 then item else best) hd

/-- `best_folder, best_score = max(scores.items(), key=lambda item: item[1])`. -/
def bestEntry (tokens : List String) : String × Nat :=
  match scoreList tokens with
  | [] => ("", 0)
  | hd :: tl => maxByScore hd tl

/-- The content string scored by `suggest_folder`:
`f"{note.title} {strip_html(note.body_html)}"`. -/
def noteContent (note : NoteRecord) : String :=
  note.title ++ " " ++ strip_html note.body_html

def noteTokens (note : NoteRecord) : List String :=
  tokenize (noteContent note)

/-- `suggest_folder` from `notes_core.py`. -/
def suggest_folder (note : NoteRecord) (known_folders : List String) : SuggestedFolder :=
  let tokens := noteTokens note
  if tokens = [] then
    { name := if note.folder = "" then "Uncategorized" else note.folder,
      confidence := 0.2, reason := "Empty note" }
  else
    let best := bestEntry tokens
    let confidence : ℚ :=
      if best.2 ≠ 0 then min 1 ((best.2 : ℚ) / max 3 ((tokens.length : ℚ) / 4)) else 0.35
    if best.2 = 0 then
      let fallback := if note.folder = "" then "Uncategorized" else note.folder
      if fallback ∈ known_folders then
        { name := fallback, confidence := confidence,
          reason := "No strong keyword match; keeping original folder" }
      else
        { name := "Uncategorized", confidence := confidence,
          reason := "No strong keyword match; keeping original folder" }
    else
      let baseReason := "Matched " ++ toString best.2 ++ " keyword(s) for " ++ best.1
      { name := best.1, confidence := confidence,
        reason := if best.1 ∉ known_folders ∧ note.folder ≠ "" then
            baseReason ++ "; original folder was " ++ note.folder
          else baseReason }

/-! ### Renderer and exporter -/

/-- Python's `html.escape` (with the default `quote=True`), applied character
by character (the sequential `str.replace` calls never rescan their own
output, so the per-character map is equivalent). -/
def escChar (c : Char) : List Char :=
  if c = '&' then "&amp;".toList
  else if c = '<' then "&lt;".toList
  else if c = '>' then "&gt;".toList
  else if c = '"' then "&quot;".toList
  else if c = '\x27' then "&#x27;".toList
  else [c]

def html_escape (s : String) : String :=
  String.mk (s.toList.map escChar).flatten

/-- `format_note` from `notes_core.py`. -/
def format_note (record : NoteRecord) (output_format : String) : String :=
  let header := "# " ++ record.title ++ "\n\n"
  let metadata := "Folder: " ++ record.folder ++ "\nCreated: " ++ record.created ++ "\n\n"
  if output_format = "html" then
    "<h1>" ++ html_escape record.title ++ "</h1>\n" ++
      "<p><strong>Folder:</strong> " ++ html_escape record.folder ++ "<br/>" ++
      "<strong>Created:</strong> " ++ html_escape record.created ++ "</p>\n" ++
      record.body_html ++ "\n"
  else if output_format = "text" then
    record.title ++ "\n" ++ record.folder ++ "\n" ++ record.created ++ "\n\n" ++
      strip_html record.body_html ++ "\n"
  else
    header ++ metadata ++ strip_html record.body_html ++ "\n"

/-- `folder_overrides.get(record.title, record.folder)`; an absent or empty
override mapping behaves like Python's `None`/`{}` (both fall back to the
record's folder). -/
def effectiveFolder (folder_overrides : List (String × String)) (record : NoteRecord) : String :=
  match folder_overrides.lookup record.title with
  | some f => f
  | none => record.folder

/-- The destination path of one note in `export_notes`, as the list of path
segments appended to `output_dir`:
`output_dir / slugify(folder_name or "Uncategorized") /
 f"{slugify(record.title)}-{timestamp}.{output_format}"`. -/
def notePath (output_dir : List String) (output_format timestamp : String)
    (folder_overrides : List (String × String)) (record : NoteRecord) : List String :=
  let folder_name := effectiveFolder folder_overrides record
  output_dir ++ [slugify (if folder_name = "" then "Uncategorized" else folder_name),
    slugify record.title ++ "-" ++ timestamp ++ "." ++ output_format]

/-- `export_notes` from `notes_core.py`, modelled as its pure path-assignment:
directories are created and `format_note record output_format` is written at
each returned path; `timestamp` is `datetime.now().strftime("%Y%m%d-%H%M%S")`,
computed once per call and hence a single parameter of the whole run. -/
def export_notes (notes : List NoteRecord) (output_dir : List String)
    (output_format : String) (folder_overrides : List (String × String))
    (timestamp : String) : List (List String) :=
  notes.map (notePath output_dir output_format timestamp folder_overrides)

/-! ### `assess_suggestions` -/

/-- One entry of the `buckets` list built by `assess_suggestions`. -/
structure Bucket where
  folder : String
  count : Nat
  avg_confidence : ℚ
deriving DecidableEq, Repr

/-- The summary dict returned by `assess_suggestions`. -/
structure Assessment where
  total : Nat
  buckets : List Bucket
deriving DecidableEq, Repr

/-- Python's `round(x, 2)` modelled as rational rounding to two decimals
(Python rounds floats half-to-even; `round` here is Mathlib's half-up
rounding — no claim depends on the tie behaviour). -/
def round2 (q : ℚ) : ℚ := (round (q * 100) : ℤ) / 100

/-- `sorted({note.folder for note in notes if note.folder})`. -/
def known_folders_of (notes : List NoteRecord) : List String :=
  List.insertionSort (fun a b => a ≤ b)
    (((notes.map (fun n => n.folder)).filter (fun f => f ≠ "")).dedup)

/-- `counts.setdefault(suggestion.name, []).append(suggestion.confidence)`:
append `c` to the entry of `name`, creating it at the end on first sight
(Python dicts keep insertion order). -/
def addConf (acc : List (String × List ℚ)) (name : String) (c : ℚ) :
    List (String × List ℚ) :=
  match acc with
  | [] => [(name, [c])]
  | (k, cs) :: rest =>
    if k = name then (k, cs ++ [c]) :: rest else (k, cs) :: addConf rest name c

/-- The `counts` dict of `assess_suggestions` after the classification loop. -/
def collectConfs (notes : List NoteRecord) (kf : List String) :
    List (String × List ℚ) :=
  notes.foldl (fun acc note =>
    let s := suggest_folder note kf
    addConf acc s.name s.confidence) []

/-- `assess_suggestions` from `notes_core.py`. -/
def assess_suggestions (notes : List NoteRecord) : Assessment :=
  let known_folders := known_folders_of notes
  let counts := collectConfs notes known_folders
  let sortedCounts := List.insertionSort (fun a b => a.1 ≤ b.1) counts
  { total := notes.length,
    buckets := sortedCounts.map (fun p =>
      { folder := p.1, count := p.2.length,
        avg_confidence := round2 (p.2.sum / (p.2.length : ℚ)) }) }

/-! ## Theorems

### C4 — empty-token fast path -/

/-- C4: for every note whose concatenated title and normalized body tokenizes
to the empty sequence, `suggest_folder` returns the note's folder (or
"Uncategorized" when the folder is empty), confidence exactly 0.2 and reason
"Empty note" — the terminal fast path, with no keyword scoring performed. -/
theorem C4_empty_token_fast_path (note : NoteRecord) (kf : List String)
    (h : noteTokens note = []) :
    suggest_folder note kf =
      { name := if note.folder = "" then "Uncategorized" else note.folder,
        confidence := 0.2, reason := "Empty note" } := by
  simp [suggest_folder, h]

/-- Witness for C4 at the all-empty note. -/
theorem C4_empty_token_fast_path_witness :
    noteTokens ⟨"", "", "", ""⟩ = [] ∧
      suggest_folder ⟨"", "", "", ""⟩ [] =
        { name := "Uncategorized", confidence := 0.2, reason := "Empty note" } :=
  ⟨by decide, C4_empty_token_fast_path ⟨"", "", "", ""⟩ [] (by decide)⟩

/-! ### C3 — zero-score fallback branch -/

/-- C3: for every note with a non-empty token sequence whose best keyword
score is zero, `suggest_folder` returns confidence exactly 0.35 and reason
"No strong keyword match; keeping original folder"; the name is the original
folder when it is non-empty and a member of `known_folders`, and
"Uncategorized" otherwise. -/
theorem C3_zero_score_branch (note : NoteRecord) (kf : List String)
    (hne : noteTokens note ≠ []) (hz : (bestEntry (noteTokens note)).2 = 0) :
    suggest_folder note kf =
      { name := if note.folder ≠ "" ∧ note.folder ∈ kf then note.folder else "Uncategorized",
        confidence := 0.35,
        reason := "No strong keyword match; keeping original folder" } := by
  by_cases hf : note.folder = ""
  · simp [suggest_folder, hne, hz, hf]
  · by_cases hm : note.folder ∈ kf
    · simp [suggest_folder, hne, hz, hf, hm]
    · simp [suggest_folder, hne, hz, hf, hm]

/-- Witness for C3: a note with tokens but no keyword hits, whose original
folder is known. -/
theorem C3_zero_score_branch_witness :
    noteTokens ⟨"Misc", "zzz qqq", "", ""⟩ ≠ [] ∧
      (bestEntry (noteTokens ⟨"Misc", "zzz qqq", "", ""⟩)).2 = 0 ∧
      suggest_folder ⟨"Misc", "zzz qqq", "", ""⟩ ["Misc"] =
        { name := "Misc", confidence := 0.35,
          reason := "No strong keyword match; keeping original folder" } :=
  ⟨by decide, by decide,
    C3_zero_score_branch ⟨"Misc", "zzz qqq", "", ""⟩ ["Misc"] (by decide) (by decide)⟩

/-! ### C2 — confidence bounds -/

/-- C2: for every note and every known-folder set, the confidence returned by
`suggest_folder` lies in the closed unit interval, across all three branches
(empty tokens, zero best score, positive best score). -/
theorem C2_confidence_in_unit_interval (note : NoteRecord) (kf : List String) :
    0 ≤ (suggest_folder note kf).confidence ∧ (suggest_folder note kf).confidence ≤ 1 := by
  by_cases hne : noteTokens note = []
  · simp only [suggest_folder, hne]
    norm_num
  · by_cases hz : (bestEntry (noteTokens note)).2 = 0
    · simp [suggest_folder, hne, hz, apply_ite SuggestedFolder.confidence]
      norm_num
    · have hconf : (suggest_folder note kf).confidence =
          min 1 (((bestEntry (noteTokens note)).2 : ℚ) /
            max 3 (((noteTokens note).length : ℚ) / 4)) := by
        simp [suggest_folder, hne, hz, apply_ite SuggestedFolder.confidence]
      rw [hconf]
      constructor
      · refine le_min (by norm_num) (div_nonneg (Nat.cast_nonneg _) ?_)
        calc (0 : ℚ) ≤ 3 := by norm_num
          _ ≤ max 3 (((noteTokens note).length : ℚ) / 4) := le_max_left _ _
      · exact min_le_left _ _

/-! ### C9 — HTML rendering escapes metadata, emits body verbatim -/

/-- C9: rendering with format "html" HTML-escapes the title, folder and
created date in the heading and metadata paragraph, and appends the note's
original body markup verbatim and unescaped; `html_escape` maps an ampersand
to `&amp;` as in the claim's example. -/
theorem C9_html_escapes_metadata_not_body (record : NoteRecord) :
    format_note record "html" =
      "<h1>" ++ html_escape record.title ++ "</h1>\n" ++
        "<p><strong>Folder:</strong> " ++ html_escape record.folder ++ "<br/>" ++
        "<strong>Created:</strong> " ++ html_escape record.created ++ "</p>\n" ++
        record.body_html ++ "\n" ∧
      html_escape "A & B" = "A &amp; B" :=
  ⟨rfl, rfl⟩

/-! ### C1 — positive-score branch

Python's `max` over the scores dict keeps the first maximal entry, so the
result is the argmax with ties broken by the table's insertion order.  The
two lemmas below characterise `maxByScore` accordingly. -/

theorem maxByScore_cons (hd x : String × Nat) (tl : List (String × Nat)) :
    maxByScore hd (x :: tl) = maxByScore (if hd.2 < x.2 then x else hd) tl := rfl

theorem maxByScore_ge (tl : List (String × Nat)) : ∀ hd, hd.2 ≤ (maxByScore hd tl).2 := by
  induction tl with
  | nil => intro hd; simp [maxByScore]
  | cons x rest ih =>
    intro hd
    rw [maxByScore_cons]
    by_cases h : hd.2 < x.2
    · rw [if_pos h]
      exact le_trans (le_of_lt h) (ih x)
    · rw [if_neg h]
      exact ih hd

/-- `maxByScore hd tl` splits `hd :: tl` into entries strictly below the best
score (before it) and entries at most the best score (after it): the first
maximal entry wins. -/
theorem maxByScore_first_argmax (tl : List (String × Nat)) :
    ∀ hd, ∃ l₁ l₂, hd :: tl = l₁ ++ maxByScore hd tl :: l₂ ∧
      (∀ p ∈ l₁, p.2 < (maxByScore hd tl).2) ∧
      (∀ p ∈ l₂, p.2 ≤ (maxByScore hd tl).2) := by
  induction tl with
  | nil =>
    intro hd
    exact ⟨[], [], by simp [maxByScore], by simp, by simp⟩
  | cons x rest ih =>
    intro hd
    rw [maxByScore_cons]
    by_cases h : hd.2 < x.2
    · rw [if_pos h]
      obtain ⟨l₁, l₂, heq, h₁, h₂⟩ := ih x
      refine ⟨hd :: l₁, l₂, ?_, ?_, h₂⟩
      · rw [List.cons_append, ← heq]
      · intro p hp
        rcases List.mem_cons.mp hp with rfl | hp'
        · exact lt_of_lt_of_le h (maxByScore_ge rest x)
        · exact h₁ p hp'
    · rw [if_neg h]
      obtain ⟨l₁, l₂, heq, h₁, h₂⟩ := ih hd
      cases l₁ with
      | nil =>
        simp only [List.nil_append] at heq
        have h1 : hd = maxByScore hd rest := (List.cons.injEq _ _ _ _ ▸ heq).1
        have h2 : rest = l₂ := (List.cons.injEq _ _ _ _ ▸ heq).2
        refine ⟨[], x :: rest, ?_, by simp, ?_⟩
        · simp [← h1]
        · intro p hp
          rcases List.mem_cons.mp hp with rfl | hp'
          · rw [← h1]; exact le_of_not_lt h
          · exact h₂ p (h2 ▸ hp')
      | cons q l₁' =>
        simp only [List.cons_append] at heq
        have h1 : hd = q := (List.cons.injEq _ _ _ _ ▸ heq).1
        have h2 : rest = l₁' ++ maxByScore hd rest :: l₂ := (List.cons.injEq _ _ _ _ ▸ heq).2
        have hqlt : q.2 < (maxByScore hd rest).2 := h₁ q (List.mem_cons_self q l₁')
        refine ⟨hd :: x :: l₁', l₂, ?_, ?_, h₂⟩
        · calc hd :: x :: rest = hd :: x :: (l₁' ++ maxByScore hd rest :: l₂) := by rw [← h2]
            _ = (hd :: x :: l₁') ++ maxByScore hd rest :: l₂ := by simp
        · intro p hp
          rcases List.mem_cons.mp hp with rfl | hp'
          · exact h1 ▸ hqlt
          · rcases List.mem_cons.mp hp' with rfl | hp''
            · exact lt_of_le_of_lt (le_of_not_lt h) (h1 ▸ hqlt)
            · exact h₁ p (List.mem_cons_of_mem q hp'')

/-- The decomposition above, transported to `bestEntry` and the table's score
list. -/
theorem bestEntry_first_argmax (tokens : List String) :
    ∃ l₁ l₂, scoreList tokens = l₁ ++ bestEntry tokens :: l₂ ∧
      (∀ p ∈ l₁, p.2 < (bestEntry tokens).2) ∧
      (∀ p ∈ l₂, p.2 ≤ (bestEntry tokens).2) := by
  cases h : scoreList tokens with
  | nil => exact absurd (List.map_eq_nil_iff.mp h) (by decide)
  | cons hd tl =>
    have hb : bestEntry tokens = maxByScore hd tl := by
      simp [bestEntry, h]
    rw [hb]
    exact maxByScore_first_argmax tl hd

/-- Tokens of the empty list score zero everywhere, so a positive best score
forces a non-empty token sequence. -/
theorem bestEntry_nil : bestEntry ([] : List String) = ("Work", 0) := by decide

/-- C1: for every note whose positive-score branch is taken, `suggest_folder`
returns the argmax folder of the keyword table (ties in maximum score broken
by the table's insertion order Work, Personal, Finance, Ideas, Journal),
confidence `min(1, bestScore / max(3, tokenCount/4))` over the tokens of the
concatenated title and normalized body, and reason
"Matched {bestScore} keyword(s) for {bestFolder}", with
"; original folder was {note.folder}" appended exactly when the best folder is
not in `known_folders` and the note's folder is non-empty. -/
theorem C1_positive_score_branch (note : NoteRecord) (kf : List String)
    (hpos : 0 < (bestEntry (noteTokens note)).2) :
    (suggest_folder note kf).name = (bestEntry (noteTokens note)).1 ∧
    (suggest_folder note kf).confidence =
      min 1 (((bestEntry (noteTokens note)).2 : ℚ) /
        max 3 (((noteTokens note).length : ℚ) / 4)) ∧
    (suggest_folder note kf).reason =
      (if (bestEntry (noteTokens note)).1 ∉ kf ∧ note.folder ≠ "" then
        "Matched " ++ toString (bestEntry (noteTokens note)).2 ++ " keyword(s) for " ++
          (bestEntry (noteTokens note)).1 ++ "; original folder was " ++ note.folder
      else
        "Matched " ++ toString (bestEntry (noteTokens note)).2 ++ " keyword(s) for " ++
          (bestEntry (noteTokens note)).1) ∧
    keyword_map.map Prod.fst = ["Work", "Personal", "Finance", "Ideas", "Journal"] ∧
    (∃ l₁ l₂, scoreList (noteTokens note) = l₁ ++ bestEntry (noteTokens note) :: l₂ ∧
      (∀ p ∈ l₁, p.2 < (bestEntry (noteTokens note)).2) ∧
      (∀ p ∈ l₂, p.2 ≤ (bestEntry (noteTokens note)).2)) := by
  have hz : ¬(bestEntry (noteTokens note)).2 = 0 := Nat.pos_iff_ne_zero.mp hpos
  have hne : noteTokens note ≠ [] := by
    intro he
    rw [he, bestEntry_nil] at hpos
    exact lt_irrefl 0 hpos
  refine ⟨?_, ?_, ?_, rfl, bestEntry_first_argmax (noteTokens note)⟩
  · simp [suggest_folder, hne, hz, apply_ite SuggestedFolder.name]
  · simp [suggest_folder, hne, hz, apply_ite SuggestedFolder.confidence]
  · by_cases hc : (bestEntry (noteTokens note)).1 ∉ kf ∧ note.folder ≠ ""
    · simp [suggest_folder, hne, hz, hc]
    · simp [suggest_folder, hne, hz, hc]

/-- Witness for C1 at a one-token note hitting the Work keyword "meeting". -/
theorem C1_positive_score_branch_witness :
    0 < (bestEntry (noteTokens ⟨"Inbox", "meeting", "", ""⟩)).2 ∧
      ((suggest_folder ⟨"Inbox", "meeting", "", ""⟩ []).name =
          (bestEntry (noteTokens ⟨"Inbox", "meeting", "", ""⟩)).1 ∧
        (suggest_folder ⟨"Inbox", "meeting", "", ""⟩ []).confidence =
          min 1 (((bestEntry (noteTokens ⟨"Inbox", "meeting", "", ""⟩)).2 : ℚ) /
            max 3 (((noteTokens ⟨"Inbox", "meeting", "", ""⟩).length : ℚ) / 4)) ∧
        (suggest_folder ⟨"Inbox", "meeting", "", ""⟩ []).reason =
          (if (bestEntry (noteTokens ⟨"Inbox", "meeting", "", ""⟩)).1 ∉ ([] : List String) ∧
              (⟨"Inbox", "meeting", "", ""⟩ : NoteRecord).folder ≠ "" then
            "Matched " ++ toString (bestEntry (noteTokens ⟨"Inbox", "meeting", "", ""⟩)).2 ++
              " keyword(s) for " ++ (bestEntry (noteTokens ⟨"Inbox", "meeting", "", ""⟩)).1 ++
              "; original folder was " ++ (⟨"Inbox", "meeting", "", ""⟩ : NoteRecord).folder
          else
            "Matched " ++ toString (bestEntry (noteTokens ⟨"Inbox", "meeting", "", ""⟩)).2 ++
              " keyword(s) for " ++ (bestEntry (noteTokens ⟨"Inbox", "meeting", "", ""⟩)).1) ∧
        keyword_map.map Prod.fst = ["Work", "Personal", "Finance", "Ideas", "Journal"] ∧
        (∃ l₁ l₂, scoreList (noteTokens ⟨"Inbox", "meeting", "", ""⟩) =
            l₁ ++ bestEntry (noteTokens ⟨"Inbox", "meeting", "", ""⟩) :: l₂ ∧
          (∀ p ∈ l₁, p.2 < (bestEntry (noteTokens ⟨"Inbox", "meeting", "", ""⟩)).2) ∧
          (∀ p ∈ l₂, p.2 ≤ (bestEntry (noteTokens ⟨"Inbox", "meeting", "", ""⟩)).2))) :=
  ⟨by decide, C1_positive_score_branch ⟨"Inbox", "meeting", "", ""⟩ [] (by decide)⟩

/-! ### C7 and C8 — export paths -/

theorem string_append_cancel_right {a b c : String} (h : a ++ c = b ++ c) : a = b := by
  apply String.ext
  have h2 := congrArg String.data h
  rw [String.data_append, String.data_append] at h2
  exact List.append_cancel_right h2

/-- C7 counterexample: two notes whose (effectiveFolder, title) pairs are
distinct can still be written to the same path, because paths are built from
slugs — the titles "My Note" and "my note" differ but share the slug
"my-note", so with equal folders the two paths coincide. -/
theorem C7_distinct_pairs_same_path_counterexample :
    (effectiveFolder [] ⟨"F", "My Note", "", ""⟩,
        (⟨"F", "My Note", "", ""⟩ : NoteRecord).title) ≠
      (effectiveFolder [] ⟨"F", "my note", "", ""⟩,
        (⟨"F", "my note", "", ""⟩ : NoteRecord).title) ∧
    export_notes [⟨"F", "My Note", "", ""⟩, ⟨"F", "my note", "", ""⟩] [] "md" []
        "20240101-000000" =
      [["f", "my-note-20240101-000000.md"], ["f", "my-note-20240101-000000.md"]] ∧
    ¬ (export_notes [⟨"F", "My Note", "", ""⟩, ⟨"F", "my note", "", ""⟩] [] "md" []
        "20240101-000000").Nodup :=
  ⟨by decide, by decide, by decide⟩

/-- C7 (amended): for every run, export returns exactly one path per input
note, in input order; and whenever the (slug of effective folder, slug of
title) pairs of the run are pairwise distinct, the written paths are pairwise
distinct. -/
theorem C7_one_path_per_note (notes : List NoteRecord) (dir : List String)
    (fmt ts : String) (ovr : List (String × String)) :
    (export_notes notes dir fmt ovr ts).length = notes.length ∧
      (∀ (i : Nat) (r : NoteRecord), notes[i]? = some r →
        (export_notes notes dir fmt ovr ts)[i]? = some (notePath dir fmt ts ovr r)) ∧
      ((notes.map (fun r =>
          (slugify (if effectiveFolder ovr r = "" then "Uncategorized" else effectiveFolder ovr r),
            slugify r.title))).Nodup →
        (export_notes notes dir fmt ovr ts).Nodup) := by
  refine ⟨?_, ?_, ?_⟩
  · simp [export_notes]
  · intro i r hi
    simp [export_notes, List.getElem?_map, hi]
  · intro h
    have hinj := List.inj_on_of_nodup_map h
    have hnodup : notes.Nodup := h.of_map
    refine List.Nodup.map_on ?_ hnodup
    intro x hx y hy hpath
    apply hinj hx hy
    unfold notePath at hpath
    have hseg := List.append_cancel_left hpath
    have hfold := (List.cons.injEq _ _ _ _ ▸ hseg).1
    have hfile : slugify x.title ++ "-" ++ ts ++ "." ++ fmt =
        slugify y.title ++ "-" ++ ts ++ "." ++ fmt :=
      (List.cons.injEq _ _ _ _ ▸ (List.cons.injEq _ _ _ _ ▸ hseg).2).1
    have htitle : slugify x.title = slugify y.title :=
      string_append_cancel_right (string_append_cancel_right
        (string_append_cancel_right (string_append_cancel_right hfile)))
    rw [Prod.mk.injEq]
    exact ⟨hfold, htitle⟩

/-- Witness for C7 at two notes with distinct folder and title slugs, also
discharging the slug-distinctness hypothesis of the conditional conjunct. -/
theorem C7_one_path_per_note_witness :
    (([⟨"A", "x", "", ""⟩, ⟨"B", "y", "", ""⟩] : List NoteRecord).map (fun r =>
        (slugify (if effectiveFolder [] r = "" then "Uncategorized" else effectiveFolder [] r),
          slugify r.title))).Nodup ∧
      ((export_notes [⟨"A", "x", "", ""⟩, ⟨"B", "y", "", ""⟩] [] "md" [] "t").length =
          ([⟨"A", "x", "", ""⟩, ⟨"B", "y", "", ""⟩] : List NoteRecord).length ∧
        (∀ (i : Nat) (r : NoteRecord),
          ([⟨"A", "x", "", ""⟩, ⟨"B", "y", "", ""⟩] : List NoteRecord)[i]? = some r →
          (export_notes [⟨"A", "x", "", ""⟩, ⟨"B", "y", "", ""⟩] [] "md" [] "t")[i]? =
            some (notePath [] "md" "t" [] r)) ∧
        (export_notes [⟨"A", "x", "", ""⟩, ⟨"B", "y", "", ""⟩] [] "md" [] "t").Nodup) :=
  ⟨by decide,
    (C7_one_path_per_note [⟨"A", "x", "", ""⟩, ⟨"B", "y", "", ""⟩] [] "md" "t" []).1,
    (C7_one_path_per_note [⟨"A", "x", "", ""⟩, ⟨"B", "y", "", ""⟩] [] "md" "t" []).2.1,
    (C7_one_path_per_note [⟨"A", "x", "", ""⟩, ⟨"B", "y", "", ""⟩] [] "md" "t" []).2.2
      (by decide)⟩

/-- C8 counterexample: the file extension is the literal format string, so
the CLI's "markdown" format yields paths ending in ".markdown", not the
claimed ".md". -/
theorem C8_markdown_extension_counterexample :
    export_notes [⟨"", "Note", "", ""⟩] [] "markdown" [] "20240101-000000" =
      [["uncategorized", "note-20240101-000000.markdown"]] ∧
    export_notes [⟨"", "Note", "", ""⟩] [] "markdown" [] "20240101-000000" ≠
      [["uncategorized", "note-20240101-000000.md"]] :=
  ⟨by decide, by decide⟩

/-- C8 (amended): each exported note's path is
`outputDir / slug(effectiveFolder) / "slug(title)-runTimestamp.format"`,
where the effective folder is the override for the title when present, else
the note's folder, defaulting to "Uncategorized" when empty; the extension is
the format string itself, and the single `ts` parameter of the call appears in
every path (the run timestamp is computed once per export call). -/
theorem C8_destination_path (notes : List NoteRecord) (dir : List String)
    (fmt ts : String) (ov : List (String × String)) (i : Nat) (r : NoteRecord)
    (h : notes[i]? = some r) :
    (export_notes notes dir fmt ov ts)[i]? =
      some (dir ++
        [slugify (if effectiveFolder ov r = "" then "Uncategorized" else effectiveFolder ov r),
          slugify r.title ++ "-" ++ ts ++ "." ++ fmt]) := by
  simp [export_notes, List.getElem?_map, h, notePath]

/-- Witness for C8 at a single-note export. -/
theorem C8_destination_path_witness :
    ([⟨"Inbox", "My Note", "", ""⟩] : List NoteRecord)[0]? =
        some ⟨"Inbox", "My Note", "", ""⟩ ∧
      (export_notes [⟨"Inbox", "My Note", "", ""⟩] ["out"] "html" [] "20240101-000000")[0]? =
        some (["out"] ++
          [slugify (if effectiveFolder [] ⟨"Inbox", "My Note", "", ""⟩ = "" then "Uncategorized"
              else effectiveFolder [] ⟨"Inbox", "My Note", "", ""⟩),
            slugify (⟨"Inbox", "My Note", "", ""⟩ : NoteRecord).title ++ "-" ++
              "20240101-000000" ++ "." ++ "html"]) :=
  ⟨by decide,
    C8_destination_path [⟨"Inbox", "My Note", "", ""⟩] ["out"] "html" "20240101-000000" [] 0
      ⟨"Inbox", "My Note", "", ""⟩ (by decide)⟩

/-! ### C10 — assessment invariants -/

theorem addConf_keys (name : String) (c : ℚ) : ∀ acc : List (String × List ℚ),
    (addConf acc name c).map Prod.fst =
      if name ∈ acc.map Prod.fst then acc.map Prod.fst else acc.map Prod.fst ++ [name] := by
  intro acc
  induction acc with
  | nil => simp [addConf]
  | cons p rest ih =>
    obtain ⟨k, cs⟩ := p
    by_cases h : k = name
    · subst h
      simp [addConf]
    · simp only [addConf, if_neg h, List.map_cons, ih, List.mem_cons]
      by_cases h2 : name ∈ rest.map Prod.fst
      · simp [h2, Ne.symm h]
      · simp [h2, Ne.symm h]

theorem addConf_keys_nodup (name : String) (c : ℚ) (acc : List (String × List ℚ))
    (h : (acc.map Prod.fst).Nodup) : ((addConf acc name c).map Prod.fst).Nodup := by
  rw [addConf_keys]
  by_cases h2 : name ∈ acc.map Prod.fst
  · simpa [h2] using h
  · simp only [if_neg h2]
    rw [List.nodup_append]
    exact ⟨h, List.nodup_singleton name, by simpa using h2⟩

theorem addConf_ne_nil (name : String) (c : ℚ) : ∀ acc : List (String × List ℚ),
    (∀ p ∈ acc, p.2 ≠ []) → ∀ p ∈ addConf acc name c, p.2 ≠ [] := by
  intro acc
  induction acc with
  | nil =>
    intro _ p hp
    rw [show addConf [] name c = [(name, [c])] from rfl] at hp
    cases hp with
    | head => simp
    | tail _ hp' => exact absurd hp' (List.not_mem_nil p)
  | cons q rest ih =>
    obtain ⟨k, cs⟩ := q
    intro h p hp
    by_cases hk : k = name
    · rw [show addConf ((k, cs) :: rest) name c = (k, cs ++ [c]) :: rest from by
        simp [addConf, hk]] at hp
      cases hp with
      | head => simp
      | tail _ hp' => exact h p (List.mem_cons_of_mem _ hp')
    · rw [show addConf ((k, cs) :: rest) name c = (k, cs) :: addConf rest name c from by
        simp [addConf, hk]] at hp
      cases hp with
      | head => exact h _ (List.mem_cons_self _ _)
      | tail _ hp' => exact ih (fun q hq => h q (List.mem_cons_of_mem _ hq)) p hp'

theorem addConf_sum_len (name : String) (c : ℚ) : ∀ acc : List (String × List ℚ),
    ((addConf acc name c).map (fun p => p.2.length)).sum =
      (acc.map (fun p => p.2.length)).sum + 1 := by
  intro acc
  induction acc with
  | nil => simp [addConf]
  | cons q rest ih =>
    obtain ⟨k, cs⟩ := q
    by_cases hk : k = name
    · subst hk
      simp [addConf]
      omega
    · simp [addConf, hk, ih]
      omega

/-- Invariants of the classification fold of `assess_suggestions`: distinct
bucket keys, non-empty confidence lists, and one confidence entry per
processed note. -/
theorem collectConfs_fold_inv (kf : List String) : ∀ (notes : List NoteRecord)
    (acc : List (String × List ℚ)),
    (acc.map Prod.fst).Nodup → (∀ p ∈ acc, p.2 ≠ []) →
    let r := notes.foldl (fun a note =>
      let s := suggest_folder note kf
      addConf a s.name s.confidence) acc
    (r.map Prod.fst).Nodup ∧ (∀ p ∈ r, p.2 ≠ []) ∧
      (r.map (fun p => p.2.length)).sum =
        (acc.map (fun p => p.2.length)).sum + notes.length := by
  intro notes
  induction notes with
  | nil =>
    intro acc h1 h2
    exact ⟨h1, h2, by simp⟩
  | cons n ns ih =>
    intro acc h1 h2
    have step := ih (addConf acc (suggest_folder n kf).name (suggest_folder n kf).confidence)
      (addConf_keys_nodup _ _ _ h1) (addConf_ne_nil _ _ _ h2)
    refine ⟨step.1, step.2.1, ?_⟩
    rw [List.foldl_cons]
    rw [step.2.2, addConf_sum_len]
    simp [List.length_cons]
    omega

/-- C10: for every note sequence, the assessment's `total` is the number of
input notes, the bucket folder names are pairwise distinct, every bucket
count is at least one, and the bucket counts sum to `total` — every
classified note lands in exactly one bucket. -/
theorem C10_assessment_invariants (notes : List NoteRecord) :
    (assess_suggestions notes).total = notes.length ∧
    ((assess_suggestions notes).buckets.map (fun b => b.folder)).Nodup ∧
    (∀ b ∈ (assess_suggestions notes).buckets, 1 ≤ b.count) ∧
    ((assess_suggestions notes).buckets.map (fun b => b.count)).sum =
      (assess_suggestions notes).total := by
  have hinv := collectConfs_fold_inv (known_folders_of notes) notes [] (by simp) (by simp)
  set counts := collectConfs notes (known_folders_of notes) with hc
  have hperm : (List.insertionSort (fun a b => a.1 ≤ b.1) counts).Perm counts :=
    List.perm_insertionSort _ _
  have hinv' : (counts.map Prod.fst).Nodup ∧ (∀ p ∈ counts, p.2 ≠ []) ∧
      (counts.map (fun p => p.2.length)).sum = notes.length := by
    simpa [hc, collectConfs] using hinv
  refine ⟨rfl, ?_, ?_, ?_⟩
  · have : ((assess_suggestions notes).buckets.map (fun b => b.folder)) =
        (List.insertionSort (fun a b => a.1 ≤ b.1) counts).map Prod.fst := by
      simp [assess_suggestions, hc]
    rw [this]
    exact ((hperm.map Prod.fst).nodup_iff).mpr hinv'.1
  · intro b hb
    simp only [assess_suggestions] at hb
    rw [List.mem_map] at hb
    obtain ⟨p, hp, rfl⟩ := hb
    have hpmem : p ∈ counts := hperm.mem_iff.mp hp
    have := hinv'.2.1 p hpmem
    simpa [Nat.one_le_iff_ne_zero] using this
  · have : ((assess_suggestions notes).buckets.map (fun b => b.count)) =
        (List.insertionSort (fun a b => a.1 ≤ b.1) counts).map (fun p => p.2.length) := by
      simp [assess_suggestions, hc]
    rw [this]
    rw [(hperm.map (fun p => p.2.length)).sum_eq, hinv'.2.2]
    rfl

/-! ### C5 and C6 — `strip_html` lemmas

Every regex pass of `strip_html` can only act at a `<` (resp. `&` for
unescaping), so markup-free text passes through untouched; and `str.strip`
is idempotent.  These lemmas make that precise. -/

theorem blockMatchLen_none_of_no_open (tag s : List Char)
    (h : ('<' :: tag).isPrefixOf s = false) : blockMatchLen tag s = none := by
  simp [blockMatchLen, h]

theorem blockMatchLen_none_of_head_ne (tag : List Char) (c : Char) (w : List Char)
    (hc : c ≠ '<') : blockMatchLen tag (c :: w) = none := by
  apply blockMatchLen_none_of_no_open
  have hb : ('<' == c) = false := beq_eq_false_iff_ne.mpr (Ne.symm hc)
  simp [List.isPrefixOf, hb]

theorem subBlockGo_cons_none (tag : List Char) (c : Char) (w : List Char)
    (h : blockMatchLen tag (c :: w) = none) :
    subBlockGo tag 0 (c :: w) = c :: subBlockGo tag 0 w := by
  simp [subBlockGo, h]

theorem subBlockGo_cons_some (tag : List Char) (c : Char) (w : List Char) (L : Nat)
    (h : blockMatchLen tag (c :: w) = some L) :
    subBlockGo tag 0 (c :: w) = subBlockGo tag (L - 1) w := by
  simp [subBlockGo, h]

theorem subBlockGo_succ (tag : List Char) (k : Nat) (c : Char) (w : List Char) :
    subBlockGo tag (k + 1) (c :: w) = subBlockGo tag k w := rfl

theorem subBlockGo_skip (tag : List Char) : ∀ l z : List Char,
    subBlockGo tag l.length (l ++ z) = subBlockGo tag 0 z := by
  intro l
  induction l with
  | nil => intro z; rfl
  | cons c rest ih =>
    intro z
    rw [List.cons_append, List.length_cons, subBlockGo_succ]
    exact ih z

theorem subBlockGo_no_lt (tag : List Char) : ∀ s : List Char, '<' ∉ s →
    subBlockGo tag 0 s = s := by
  intro s
  induction s with
  | nil => intro _; rfl
  | cons c rest ih =>
    intro h
    have hc : c ≠ '<' := fun he => h (he ▸ List.mem_cons_self c rest)
    rw [subBlockGo_cons_none tag c rest (blockMatchLen_none_of_head_ne tag c rest hc),
      ih (fun hm => h (List.mem_cons_of_mem c hm))]

theorem subBlockGo_append_no_lt (tag : List Char) : ∀ pre z : List Char, '<' ∉ pre →
    subBlockGo tag 0 (pre ++ z) = pre ++ subBlockGo tag 0 z := by
  intro pre
  induction pre with
  | nil => intro z _; rfl
  | cons c rest ih =>
    intro z h
    have hc : c ≠ '<' := fun he => h (he ▸ List.mem_cons_self c rest)
    rw [List.cons_append,
      subBlockGo_cons_none tag c _ (blockMatchLen_none_of_head_ne tag c _ hc),
      ih z (fun hm => h (List.mem_cons_of_mem c hm)), List.cons_append]

theorem brMatchLen_none_of_head_ne (c : Char) (w : List Char) (hc : c ≠ '<') :
    brMatchLen (c :: w) = none := by
  unfold brMatchLen
  split
  · rename_i heq
    injection heq with h1 _
    exact absurd h1 hc
  · rfl

theorem subBrGo_cons_none (c : Char) (w : List Char) (h : brMatchLen (c :: w) = none) :
    subBrGo 0 (c :: w) = c :: subBrGo 0 w := by
  simp [subBrGo, h]

theorem subBrGo_no_lt : ∀ s : List Char, '<' ∉ s → subBrGo 0 s = s := by
  intro s
  induction s with
  | nil => intro _; rfl
  | cons c rest ih =>
    intro h
    have hc : c ≠ '<' := fun he => h (he ▸ List.mem_cons_self c rest)
    rw [subBrGo_cons_none c rest (brMatchLen_none_of_head_ne c rest hc),
      ih (fun hm => h (List.mem_cons_of_mem c hm))]

theorem pCloseLen_none_of_head_ne (c : Char) (w : List Char) (hc : c ≠ '<') :
    pCloseLen (c :: w) = none := by
  unfold pCloseLen
  split
  · rename_i heq
    injection heq with h1 _
    exact absurd h1 hc
  · rfl

theorem subPGo_cons_none (c : Char) (w : List Char) (h : pCloseLen (c :: w) = none) :
    subPGo 0 (c :: w) = c :: subPGo 0 w := by
  simp [subPGo, h]

theorem subPGo_no_lt : ∀ s : List Char, '<' ∉ s → subPGo 0 s = s := by
  intro s
  induction s with
  | nil => intro _; rfl
  | cons c rest ih =>
    intro h
    have hc : c ≠ '<' := fun he => h (he ▸ List.mem_cons_self c rest)
    rw [subPGo_cons_none c rest (pCloseLen_none_of_head_ne c rest hc),
      ih (fun hm => h (List.mem_cons_of_mem c hm))]

theorem subTagsGo_cons_ne (c : Char) (w : List Char) (hc : (c == '<') = false) :
    subTagsGo 0 (c :: w) = c :: subTagsGo 0 w := by
  simp [subTagsGo, hc]

theorem subTagsGo_no_lt : ∀ s : List Char, '<' ∉ s → subTagsGo 0 s = s := by
  intro s
  induction s with
  | nil => intro _; rfl
  | cons c rest ih =>
    intro h
    have hc : (c == '<') = false :=
      beq_eq_false_iff_ne.mpr (fun he => h (he ▸ List.mem_cons_self c rest))
    rw [subTagsGo_cons_ne c rest hc, ih (fun hm => h (List.mem_cons_of_mem c hm))]

theorem unescapeGo_cons_ne (c : Char) (w : List Char) (hc : (c == '&') = false) :
    unescapeGo 0 (c :: w) = c :: unescapeGo 0 w := by
  simp [unescapeGo, hc]

theorem unescapeGo_no_amp : ∀ s : List Char, '&' ∉ s → unescapeGo 0 s = s := by
  intro s
  induction s with
  | nil => intro _; rfl
  | cons c rest ih =>
    intro h
    have hc : (c == '&') = false :=
      beq_eq_false_iff_ne.mpr (fun he => h (he ▸ List.mem_cons_self c rest))
    rw [unescapeGo_cons_ne c rest hc, ih (fun hm => h (List.mem_cons_of_mem c hm))]

theorem dropWhile_head_not (p : Char → Bool) (l : List Char) (x : Char)
    (hx : (l.dropWhile p).head? = some x) : p x = false := by
  have h2 := List.head?_dropWhile_not p l
  rw [hx] at h2
  exact h2

theorem dropWhile_eq_self_of_head (p : Char → Bool) (l : List Char)
    (h : ∀ x, l.head? = some x → p x = false) : l.dropWhile p = l := by
  cases l with
  | nil => rfl
  | cons c rest =>
    have := h c rfl
    simp [List.dropWhile_cons, this]

theorem dropWhile_idem (p : Char → Bool) (l : List Char) :
    (l.dropWhile p).dropWhile p = l.dropWhile p :=
  dropWhile_eq_self_of_head p _ (fun x hx => dropWhile_head_not p l x hx)

/-- `str.strip()` is idempotent. -/
theorem pyStrip_idem (l : List Char) : pyStrip (pyStrip l) = pyStrip l := by
  unfold pyStrip
  set u := l.dropWhile isPyWS with hu
  set v := u.reverse.dropWhile isPyWS with hv
  have h1 : v.reverse.dropWhile isPyWS = v.reverse := by
    apply dropWhile_eq_self_of_head
    intro x hx
    have hsplit : u.reverse.takeWhile isPyWS ++ v = u.reverse := by
      rw [hv]; exact List.takeWhile_append_dropWhile isPyWS u.reverse
    have h3 := congrArg List.reverse hsplit
    rw [List.reverse_append, List.reverse_reverse] at h3
    cases hvr : v.reverse with
    | nil => rw [hvr] at hx; exact absurd hx (by simp)
    | cons y t =>
      rw [hvr] at hx
      simp only [List.head?_cons, Option.some.injEq] at hx
      have hhead : u.head? = some y := by
        rw [← h3, hvr]; simp
      have hy : isPyWS y = false := by
        rw [hu] at hhead
        exact dropWhile_head_not isPyWS l y hhead
      rw [← hx]
      exact hy
  rw [h1, List.reverse_reverse, dropWhile_idem]

theorem mem_pyStrip (c : Char) (l : List Char) (h : c ∈ pyStrip l) : c ∈ l := by
  unfold pyStrip at h
  rw [List.mem_reverse] at h
  have h2 : c ∈ (l.dropWhile isPyWS).reverse :=
    List.Sublist.mem h (List.dropWhile_sublist _)
  rw [List.mem_reverse] at h2
  exact List.Sublist.mem h2 (List.dropWhile_sublist _)

/-- On text with no `<` and no `&`, `strip_html` reduces to `str.strip`. -/
theorem strip_html_plain (s : List Char) (h1 : '<' ∉ s) (h2 : '&' ∉ s) :
    strip_html (String.mk s) = String.mk (pyStrip s) := by
  simp only [strip_html]
  rw [show (String.mk s).toList = s from rfl]
  rw [subBlockGo_no_lt styleTag s h1, subBlockGo_no_lt scriptTag s h1, subBrGo_no_lt s h1,
    subPGo_no_lt s h1, subTagsGo_no_lt s h1, unescapeGo_no_amp s h2]

/-- C5 counterexample: "&amp;amp;" contains no markup tags, yet `normalize`
is not idempotent on it — the first pass decodes the leading entity to
"&amp;" and the second decodes again to "&". -/
theorem C5_entity_counterexample :
    ('<' ∉ "&amp;amp;".toList ∧ '>' ∉ "&amp;amp;".toList) ∧
      strip_html "&amp;amp;" = "&amp;" ∧
      strip_html (strip_html "&amp;amp;") ≠ strip_html "&amp;amp;" :=
  ⟨⟨by decide, by decide⟩, by decide, by decide⟩

/-- C5 (amended): `normalize` is idempotent on strings that contain no markup
tags and no character-entity escapes (no `<` and no `&`). -/
theorem C5_normalize_idempotent (x : String)
    (hlt : '<' ∉ x.toList) (hamp : '&' ∉ x.toList) :
    strip_html (strip_html x) = strip_html x := by
  have e1 : strip_html x = String.mk (pyStrip x.toList) := by
    have h := strip_html_plain x.toList hlt hamp
    rwa [show String.mk x.toList = x from rfl] at h
  rw [e1, strip_html_plain (pyStrip x.toList)
    (fun hm => hlt (mem_pyStrip _ _ hm)) (fun hm => hamp (mem_pyStrip _ _ hm)),
    pyStrip_idem]

/-- Witness for C5 at a plain string with interior whitespace. -/
theorem C5_normalize_idempotent_witness :
    ('<' ∉ "a b".toList ∧ '&' ∉ "a b".toList) ∧
      strip_html (strip_html "a b") = strip_html "a b" :=
  ⟨⟨by decide, by decide⟩, C5_normalize_idempotent "a b" (by decide) (by decide)⟩

theorem isPrefixOf_append_self (l z : List Char) : l.isPrefixOf (l ++ z) = true :=
  List.isPrefixOf_iff_prefix.mpr (List.prefix_append l z)

theorem firstOccIdx_cons (pat : List Char) (c : Char) (w : List Char) :
    firstOccIdx pat (c :: w) =
      if pat.isPrefixOf (c :: w) then some 0 else (firstOccIdx pat w).map (· + 1) := rfl

/-- The first occurrence of a `<`-headed pattern after a `<`-free block is at
the block boundary. -/
theorem firstOccIdx_boundary (pat : List Char) (hne : pat ≠ [])
    (hhead : pat.head? = some '<') : ∀ inner rest : List Char, '<' ∉ inner →
      firstOccIdx pat (inner ++ pat ++ rest) = some inner.length := by
  intro inner
  induction inner with
  | nil =>
    intro rest _
    cases pat with
    | nil => exact absurd rfl hne
    | cons a as =>
      simp only [List.nil_append, List.cons_append, List.length_nil]
      rw [firstOccIdx_cons]
      rw [if_pos]
      exact isPrefixOf_append_self (a :: as) rest
  | cons c cs ih =>
    intro rest h
    have hc : c ≠ '<' := fun he => h (he ▸ List.mem_cons_self c cs)
    have hp : ∀ w : List Char, pat.isPrefixOf (c :: w) = false := by
      intro w
      cases pat with
      | nil => exact absurd rfl hne
      | cons a as =>
        have ha : a = '<' := by simpa using hhead
        subst ha
        have hb : ('<' == c) = false := beq_eq_false_iff_ne.mpr (Ne.symm hc)
        simp [List.isPrefixOf, hb]
    simp only [List.cons_append, List.length_cons]
    rw [firstOccIdx_cons]
    rw [if_neg (by simp [hp])]
    rw [ih rest (fun hm => h (List.mem_cons_of_mem c hm))]
    rfl

/-- The lazy block regex matches exactly the block when it starts at the head
and the interior contains no `<`: the first `>` closes the open tag and the
first close tag ends the match. -/
theorem blockMatchLen_at_block (tag inner z : List Char) (hinner : '<' ∉ inner) :
    blockMatchLen tag
        ('<' :: (tag ++ '>' :: ((inner ++ ('<' :: '/' :: (tag ++ ['>']))) ++ z))) =
      some ((tag ++ '>' :: (inner ++ ('<' :: '/' :: (tag ++ ['>'])))).length + 1) := by
  have hprefix : ('<' :: tag).isPrefixOf
      ('<' :: (tag ++ '>' :: ((inner ++ ('<' :: '/' :: (tag ++ ['>']))) ++ z))) = true := by
    apply List.isPrefixOf_iff_prefix.mpr
    rw [List.cons_prefix_cons]
    exact ⟨rfl, List.prefix_append tag _⟩
  have hdrop : ('<' :: (tag ++ '>' :: ((inner ++ ('<' :: '/' :: (tag ++ ['>']))) ++ z))).drop
      (('<' :: tag).length) = '>' :: ((inner ++ ('<' :: '/' :: (tag ++ ['>']))) ++ z) := by
    rw [show '<' :: (tag ++ '>' :: ((inner ++ ('<' :: '/' :: (tag ++ ['>']))) ++ z)) =
      ('<' :: tag) ++ ('>' :: ((inner ++ ('<' :: '/' :: (tag ++ ['>']))) ++ z)) from by simp]
    exact List.drop_left _ _
  have hocc : firstOccIdx ('<' :: '/' :: (tag ++ ['>']))
      (inner ++ ('<' :: '/' :: (tag ++ ['>'])) ++ z) = some inner.length :=
    firstOccIdx_boundary _ (by simp) (by simp) inner z hinner
  simp only [blockMatchLen, hprefix, if_true, hdrop, List.drop_succ_cons, List.drop_zero]
  rw [show firstIdxP (fun c => c == '>')
      ('>' :: ((inner ++ ('<' :: '/' :: (tag ++ ['>']))) ++ z)) = some 0 from by
    simp [firstIdxP]]
  dsimp only
  rw [List.drop_zero]
  rw [hocc]
  dsimp only
  simp only [Option.some.injEq, List.length_append, List.length_cons]
  omega

/-- Removing a well-delimited block at the head of the input: the scanner
erases the block and resumes after it. -/
theorem subBlockGo_removes_block (tag inner z : List Char) (hinner : '<' ∉ inner) :
    subBlockGo tag 0
        (('<' :: (tag ++ ['>'])) ++ inner ++ ('<' :: '/' :: (tag ++ ['>'])) ++ z) =
      subBlockGo tag 0 z := by
  have hshape : ('<' :: (tag ++ ['>'])) ++ inner ++ ('<' :: '/' :: (tag ++ ['>'])) ++ z =
      '<' :: ((tag ++ '>' :: (inner ++ ('<' :: '/' :: (tag ++ ['>'])))) ++ z) := by
    simp
  rw [hshape]
  have hm := blockMatchLen_at_block tag inner z hinner
  rw [show (tag ++ '>' :: ((inner ++ ('<' :: '/' :: (tag ++ ['>']))) ++ z)) =
    ((tag ++ '>' :: (inner ++ ('<' :: '/' :: (tag ++ ['>'])))) ++ z) from by simp] at hm
  rw [subBlockGo_cons_some tag _ _ _ hm]
  rw [Nat.add_sub_cancel]
  exact subBlockGo_skip tag _ z

/-- The style pass is case sensitive and its open tag diverges from
`<script` at the third character, so a script block passes through the style
pass unchanged (given a `<`-free interior). -/
theorem style_pass_scriptblock (inner z : List Char) (hinner : '<' ∉ inner) :
    subBlockGo styleTag 0
        ('<' :: 's' :: 'c' :: 'r' :: 'i' :: 'p' :: 't' :: '>' ::
          (inner ++ '<' :: '/' :: 's' :: 'c' :: 'r' :: 'i' :: 'p' :: 't' :: '>' :: z)) =
      '<' :: 's' :: 'c' :: 'r' :: 'i' :: 'p' :: 't' :: '>' ::
        (inner ++ '<' :: '/' :: 's' :: 'c' :: 'r' :: 'i' :: 'p' :: 't' :: '>' ::
          subBlockGo styleTag 0 z) := by
  rw [subBlockGo_cons_none _ _ _ (blockMatchLen_none_of_no_open _ _ (by
    simp [styleTag, List.isPrefixOf]))]
  rw [subBlockGo_cons_none _ _ _ (blockMatchLen_none_of_head_ne _ _ _ (by decide))]
  rw [subBlockGo_cons_none _ _ _ (blockMatchLen_none_of_head_ne _ _ _ (by decide))]
  rw [subBlockGo_cons_none _ _ _ (blockMatchLen_none_of_head_ne _ _ _ (by decide))]
  rw [subBlockGo_cons_none _ _ _ (blockMatchLen_none_of_head_ne _ _ _ (by decide))]
  rw [subBlockGo_cons_none _ _ _ (blockMatchLen_none_of_head_ne _ _ _ (by decide))]
  rw [subBlockGo_cons_none _ _ _ (blockMatchLen_none_of_head_ne _ _ _ (by decide))]
  rw [subBlockGo_cons_none _ _ _ (blockMatchLen_none_of_head_ne _ _ _ (by decide))]
  rw [subBlockGo_append_no_lt styleTag inner _ hinner]
  rw [subBlockGo_cons_none _ _ _ (blockMatchLen_none_of_no_open _ _ (by
    simp [styleTag, List.isPrefixOf]))]
  rw [subBlockGo_cons_none _ _ _ (blockMatchLen_none_of_head_ne _ _ _ (by decide))]
  rw [subBlockGo_cons_none _ _ _ (blockMatchLen_none_of_head_ne _ _ _ (by decide))]
  rw [subBlockGo_cons_none _ _ _ (blockMatchLen_none_of_head_ne _ _ _ (by decide))]
  rw [subBlockGo_cons_none _ _ _ (blockMatchLen_none_of_head_ne _ _ _ (by decide))]
  rw [subBlockGo_cons_none _ _ _ (blockMatchLen_none_of_head_ne _ _ _ (by decide))]
  rw [subBlockGo_cons_none _ _ _ (blockMatchLen_none_of_head_ne _ _ _ (by decide))]
  rw [subBlockGo_cons_none _ _ _ (blockMatchLen_none_of_head_ne _ _ _ (by decide))]
  rw [subBlockGo_cons_none _ _ _ (blockMatchLen_none_of_head_ne _ _ _ (by decide))]

theorem string_toList_append (s t : String) : (s ++ t).toList = s.toList ++ t.toList :=
  String.data_append s t

theorem strip_html_congr_style (a b : String)
    (h : subBlockGo styleTag 0 a.toList = subBlockGo styleTag 0 b.toList) :
    strip_html a = strip_html b := by
  simp only [strip_html]
  rw [h]

theorem strip_html_congr_script (a b : String)
    (h : subBlockGo scriptTag 0 (subBlockGo styleTag 0 a.toList) =
      subBlockGo scriptTag 0 (subBlockGo styleTag 0 b.toList)) :
    strip_html a = strip_html b := by
  simp only [strip_html]
  rw [h]

/-- C6 counterexample: the style/script regexes are case sensitive, so the
content of an uppercase `<STYLE>` block survives normalization — the inner
text "secret" occurs in (in fact, is) the output. -/
theorem C6_uppercase_style_counterexample :
    strip_html "<STYLE>secret</STYLE>" = "secret" ∧
      "secret".toList.IsInfix (strip_html "<STYLE>secret</STYLE>").toList :=
  ⟨by decide, ⟨[], [], by decide⟩⟩

/-- C6 (amended): `normalize` does remove lowercase `<style>` and `<script>`
blocks in their entirety, inner content included, whenever the block interior
contains no `<` (the prefix before the block must also be `<`-free so that no
earlier match steals the scan); blocks whose tag letters use another case are
not matched by the case-sensitive regexes. -/
theorem C6_style_script_blocks_removed (pre inner post : String)
    (hpre : '<' ∉ pre.toList) (hinner : '<' ∉ inner.toList) :
    strip_html (pre ++ "<style>" ++ inner ++ "</style>" ++ post) =
        strip_html (pre ++ post) ∧
      strip_html (pre ++ "<script>" ++ inner ++ "</script>" ++ post) =
        strip_html (pre ++ post) := by
  constructor
  · apply strip_html_congr_style
    have hL : (pre ++ "<style>" ++ inner ++ "</style>" ++ post).toList =
        pre.toList ++ (('<' :: (styleTag ++ ['>'])) ++ inner.toList ++
          ('<' :: '/' :: (styleTag ++ ['>'])) ++ post.toList) := by
      simp only [string_toList_append]
      rw [show "<style>".toList = '<' :: (styleTag ++ ['>']) from by decide,
        show "</style>".toList = '<' :: '/' :: (styleTag ++ ['>']) from by decide]
      simp
    rw [hL, string_toList_append,
      subBlockGo_append_no_lt styleTag pre.toList _ hpre,
      subBlockGo_append_no_lt styleTag pre.toList _ hpre,
      subBlockGo_removes_block styleTag inner.toList post.toList hinner]
  · apply strip_html_congr_script
    have hL : (pre ++ "<script>" ++ inner ++ "</script>" ++ post).toList =
        pre.toList ++ ('<' :: 's' :: 'c' :: 'r' :: 'i' :: 'p' :: 't' :: '>' ::
          (inner.toList ++ '<' :: '/' :: 's' :: 'c' :: 'r' :: 'i' :: 'p' :: 't' :: '>' ::
            post.toList)) := by
      simp only [string_toList_append]
      rw [show "<script>".toList = ['<', 's', 'c', 'r', 'i', 'p', 't', '>'] from by decide,
        show "</script>".toList = ['<', '/', 's', 'c', 'r', 'i', 'p', 't', '>'] from by decide]
      simp
    rw [hL, subBlockGo_append_no_lt styleTag pre.toList _ hpre,
      style_pass_scriptblock inner.toList post.toList hinner,
      subBlockGo_append_no_lt scriptTag pre.toList _ hpre]
    rw [show '<' :: 's' :: 'c' :: 'r' :: 'i' :: 'p' :: 't' :: '>' ::
        (inner.toList ++ '<' :: '/' :: 's' :: 'c' :: 'r' :: 'i' :: 'p' :: 't' :: '>' ::
          subBlockGo styleTag 0 post.toList) =
      ('<' :: (scriptTag ++ ['>'])) ++ inner.toList ++ ('<' :: '/' :: (scriptTag ++ ['>'])) ++
        subBlockGo styleTag 0 post.toList from by simp [scriptTag]]
    rw [subBlockGo_removes_block scriptTag inner.toList _ hinner]
    rw [string_toList_append, subBlockGo_append_no_lt styleTag pre.toList _ hpre,
      subBlockGo_append_no_lt scriptTag pre.toList _ hpre]

/-- Witness for C6 at a small style/script pair. -/
theorem C6_style_script_blocks_removed_witness :
    ('<' ∉ "a ".toList ∧ '<' ∉ "x".toList) ∧
      (strip_html ("a " ++ "<style>" ++ "x" ++ "</style>" ++ "b") =
          strip_html ("a " ++ "b") ∧
        strip_html ("a " ++ "<script>" ++ "x" ++ "</script>" ++ "b") =
          strip_html ("a " ++ "b")) :=
  ⟨⟨by decide, by decide⟩,
    C6_style_script_blocks_removed "a " "x" "b" (by decide) (by decide)⟩

end NotesCore
